import Mathlib

/-!
Verification of the storage/search consistency core of the `medi` note
manager.  The primary store (sled) is modelled as an association list of
keys to tagged values; the tantivy search index as a list of documents;
timestamps as naturals.  All definitions follow the Rust source in
`src/db.rs`, `src/search.rs` and `src/lib.rs`.
-/

namespace Medi

/-- A note, as in `src/note.rs`: key, title, tags, content and the two
timestamps (modelled as naturals). -/
structure Note where
  key : String
  title : String
  tags : List String
  content : String
  created_at : Nat
  modified_at : Nat
deriving DecidableEq

/-- Task status, as in `src/task.rs`. -/
inductive TaskStatus where
  | Open
  | Prio
  | Done
deriving DecidableEq

/-- A task, as in `src/task.rs`. -/
structure Task where
  id : Nat
  note_key : String
  description : String
  status : TaskStatus
  created_at : Nat
deriving DecidableEq

/-- A value stored in the sled tree.  `save_note` writes JSON-serialized
notes, `save_task` JSON-serialized tasks, and the task-ID counter is a raw
8-byte little-endian integer (`Val.bytes8 v` with `v < 2 ^ 64`). -/
inductive Val where
  | noteJson (n : Note)
  | taskJson (t : Task)
  | bytes8 (v : Nat)
deriving DecidableEq

/-- The sled default tree: an association list from keys to values.
sled keys are unique; insert is an upsert. -/
abbrev Store := List (String × Val)

/-- sled `Db::get`. -/
def storeGet : Store → String → Option Val
  | [], _ => none
  | (k, v) :: rest, key => if k = key then some v else storeGet rest key

/-- sled `Db::insert` (upsert: replaces the value if the key is present,
otherwise adds the pair). -/
def storeInsert : Store → String → Val → Store
  | [], key, v => [(key, v)]
  | (k, w) :: rest, key, v =>
    if k = key then (key, v) :: rest else (k, w) :: storeInsert rest key v

/-- sled `Db::remove`. -/
def storeRemove : Store → String → Store
  | [], _ => []
  | (k, w) :: rest, key =>
    if k = key then storeRemove rest key else (k, w) :: storeRemove rest key

/-- sled `Db::contains_key`. -/
def storeContainsKey (db : Store) (key : String) : Bool :=
  (storeGet db key).isSome

/-- The error variants of `src/error.rs` reached by the modelled code. -/
inductive AppError where
  | Sled
  | SerdeJson
  | Database (msg : String)
  | KeyNotFound (key : String)
  | KeyExists (key : String)
deriving DecidableEq

/-- `serde_json::from_slice::<Note>` on a stored value.  Only values
written by `save_note` deserialize into a `Note`: the counter value is 8
raw non-JSON bytes and a task's JSON lacks the required `Note` fields
(`key`, `title`, `content`, timestamps), so both fail with a serde
error. -/
def decodeNote : Val → Except AppError Note
  | Val.noteJson n => Except.ok n
  | _ => Except.error AppError.SerdeJson

/-- `db::key_exists` from `src/db.rs`. -/
def key_exists (db : Store) (key : String) : Bool :=
  storeContainsKey db key

/-- `db::save_note` from `src/db.rs`: serialize and insert under
`note.key`, then flush.  `putFails` injects a sled failure of the
insert/flush step; on failure the error propagates via `?`. -/
def save_note (db : Store) (note : Note) (putFails : Bool) : Except AppError Store :=
  if putFails then Except.error AppError.Sled
  else Except.ok (storeInsert db note.key (Val.noteJson note))

/-- `db::get_note` from `src/db.rs`. -/
def get_note (db : Store) (key : String) : Except AppError Note :=
  match storeGet db key with
  | none => Except.error (AppError.KeyNotFound key)
  | some v => decodeNote v

/-- `db::delete_note` from `src/db.rs`: error with `KeyNotFound` when the
key is absent, otherwise remove and flush. -/
def delete_note (db : Store) (key : String) : Except AppError Store :=
  if storeContainsKey db key then Except.ok (storeRemove db key)
  else Except.error (AppError.KeyNotFound key)

/-- `db::get_all_notes` from `src/db.rs`: iterate over ALL values of the
default tree (`db.iter()`, no key filtering) and deserialize each one as
a `Note`, short-circuiting at the first failure (`collect` over
`Result`). -/
def get_all_notes : Store → Except AppError (List Note)
  | [] => Except.ok []
  | (_, v) :: rest =>
    match decodeNote v with
    | Except.error e => Except.error e
    | Except.ok n =>
      match get_all_notes rest with
      | Except.error e => Except.error e
      | Except.ok ns => Except.ok (n :: ns)

/-- A tantivy document, projection of a note under the fixed schema of
`src/search.rs` (`key`, `title`, `content`, `tags`). -/
structure Doc where
  key : String
  title : String
  content : String
  tags : List String
deriving DecidableEq

/-- The document built from a note by `search::add_note_to_index`. -/
def noteToDoc (n : Note) : Doc :=
  { key := n.key, title := n.title, content := n.content, tags := n.tags }

/-- `search::add_note_to_index`: append-only `add_document` on the open
writer (no upsert, no duplicate check). -/
def add_note_to_index (note : Note) (docs : List Doc) : List Doc :=
  docs ++ [noteToDoc note]

/-- `search::delete_note_from_index`: `delete_term` on the exact `key`
field, removing every document carrying that key (a no-op when none
does). -/
def delete_note_from_index (key : String) (docs : List Doc) : List Doc :=
  List.filter (fun d => d.key != key) docs

/-- The two persistent stores of the system: the sled tree and the
committed tantivy index (its visible documents). -/
structure SysState where
  store : Store
  index : List Doc
deriving DecidableEq

/-- `db::save_note_with_index` from `src/db.rs`: save to the primary
store first; on failure abort before a writer is opened.  On success
open one writer, delete the old document by key, add the new one, and
commit once. -/
def save_note_with_index (s : SysState) (note : Note) (putFails : Bool) :
    SysState × Option AppError :=
  match save_note s.store note putFails with
  | Except.error e => (s, some e)
  | Except.ok db2 =>
    let docs1 := delete_note_from_index note.key s.index
    let docs2 := add_note_to_index note docs1
    ({ store := db2, index := docs2 }, none)

/-- `db::delete_note_with_index` from `src/db.rs`: delete from the
primary store first; on `KeyNotFound` return the error untouched, else
open a writer, delete the document by key and commit. -/
def delete_note_with_index (s : SysState) (key : String) : SysState × Option AppError :=
  match delete_note s.store key with
  | Except.ok db2 =>
    ({ store := db2, index := delete_note_from_index key s.index }, none)
  | Except.error e => (s, some e)

/-- The `Commands::Reindex` handler of `src/lib.rs`: fetch all notes via
`get_all_notes` (aborting, writer untouched, if that fails), then wipe
the index (`delete_all_documents`), add every note and commit once. -/
def reindex_all (s : SysState) : SysState × Option AppError :=
  match get_all_notes s.store with
  | Except.error e => (s, some e)
  | Except.ok notes =>
    ({ store := s.store,
       index := List.foldl (fun docs n => add_note_to_index n docs) [] notes }, none)

/-- The key-exists guard and note construction of the `Commands::New`
handler in `src/lib.rs`: reject with `KeyExists` before any content is
read; skip creation when the content is blank; otherwise build the note
(title defaulting to the key, both timestamps set to now) and run
`save_note_with_index`. -/
def cmd_new (s : SysState) (key : String) (title : Option String) (tag : List String)
    (content : String) (now : Nat) : SysState × Option AppError :=
  if key_exists s.store key then (s, some (AppError.KeyExists key))
  else if content.trim = "" then (s, none)
  else
    save_note_with_index s
      { key := key, title := title.getD key, tags := tag, content := content,
        created_at := now, modified_at := now } false

/-- The add-tag loop of `Commands::Edit`: push each tag not already
present (checking the evolving list) and record whether anything was
pushed. -/
def applyAddTags (tags add : List String) : List String × Bool :=
  List.foldl
    (fun acc t => if acc.1.contains t then acc else (acc.1 ++ [t], true))
    (tags, false) add

/-- The rm-tag step of `Commands::Edit`: when the removal list is
nonempty, retain only tags outside it and record whether the length
changed. -/
def applyRmTags (tags rm : List String) : List String × Bool :=
  if rm = [] then (tags, false)
  else
    let kept := List.filter (fun t => !(rm.contains t)) tags
    (kept, kept.length != tags.length)

/-- The mutation logic of the `Commands::Edit` handler in `src/lib.rs`:
if tags changed, bump `modified_at` and save (content editing skipped);
otherwise open the editor and, when the trimmed content differs, replace
the content and bump `modified_at`.  Returns the saved note, or `none`
when nothing was modified. -/
def cmd_edit (note : Note) (add_tag rm_tag : List String) (editorContent : String)
    (now : Nat) : Option Note :=
  let r1 := applyAddTags note.tags add_tag
  let r2 := applyRmTags r1.1 rm_tag
  if r1.2 || r2.2 then
    some { note with tags := r2.1, modified_at := now }
  else if editorContent.trim != note.content.trim then
    some { note with content := editorContent, modified_at := now }
  else none

/-- The reserved counter key of `src/db.rs`. -/
def counterKey : String := "__counter__/tasks"

/-- The closure passed to `update_and_fetch` in `db::get_next_task_id`:
absent counter is treated as 0, an 8-byte value is parsed and
incremented (u64 arithmetic), and the new value is always returned as
`Some`.  The outer `none` models the `copy_from_slice` panic on a stored
value that is not 8 bytes long (the closure never returns there). -/
def counterClosure (old : Option Val) : Option (Option Nat) :=
  match old with
  | none => some (some ((0 + 1) % 2 ^ 64))
  | some (Val.bytes8 v) => some (some ((v + 1) % 2 ^ 64))
  | some _ => none

/-- `db::get_next_task_id` from `src/db.rs`: atomically apply
`counterClosure` to the counter key (`update_and_fetch` stores the
returned bytes, or removes the key on `None`), then return the new ID,
or the `Database` counter-failure error when `update_and_fetch` yielded
`None`.  The outer `none` propagates the closure's panic. -/
def get_next_task_id (db : Store) : Option (Except AppError Nat × Store) :=
  match counterClosure (storeGet db counterKey) with
  | none => none
  | some none =>
    some (Except.error (AppError.Database "Failed to update task counter"),
      storeRemove db counterKey)
  | some (some newId) =>
    some (Except.ok newId, storeInsert db counterKey (Val.bytes8 newId))

/-- `db::reset_task_counter` from `src/db.rs`: force-set the counter to
0 (8 zero bytes). -/
def reset_task_counter (db : Store) : Store :=
  storeInsert db counterKey (Val.bytes8 0)

/-- The key under which `db::save_task` stores a task. -/
def taskKey (id : Nat) : String := "tasks/" ++ toString id

/-- `db::save_task` from `src/db.rs`. -/
def save_task (db : Store) (t : Task) : Store :=
  storeInsert db (taskKey t.id) (Val.taskJson t)

/-- An interleavable primary-store operation: an ID issue or one of the
other mutating store operations of the system. -/
inductive MediOp where
  | nextId
  | saveNote (n : Note)
  | deleteNote (key : String)
  | saveTask (t : Task)
deriving DecidableEq

/-- Sequential execution of a list of store operations, collecting the
task IDs issued by the `nextId` steps.  `none` propagates a panic of the
counter closure. -/
def runOps : List MediOp → Store → Option (Store × List Nat)
  | [], db => some (db, [])
  | MediOp.nextId :: rest, db =>
    match get_next_task_id db with
    | none => none
    | some (Except.error _, db2) => runOps rest db2
    | some (Except.ok n, db2) =>
      match runOps rest db2 with
      | none => none
      | some (db3, ids) => some (db3, n :: ids)
  | MediOp.saveNote n :: rest, db =>
    match save_note db n false with
    | Except.error _ => runOps rest db
    | Except.ok db2 => runOps rest db2
  | MediOp.deleteNote key :: rest, db =>
    match delete_note db key with
    | Except.error _ => runOps rest db
    | Except.ok db2 => runOps rest db2
  | MediOp.saveTask t :: rest, db => runOps rest (save_task db t)

/-- Number of `nextId` steps in an operation list. -/
def countNextId (ops : List MediOp) : Nat :=
  List.countP (fun op => match op with | MediOp.nextId => true | _ => false) ops

/-- An operation that neither writes nor deletes the reserved counter
key. -/
def opAvoidsCounter : MediOp → Bool
  | MediOp.nextId => true
  | MediOp.saveNote n => n.key != counterKey
  | MediOp.deleteNote key => key != counterKey
  | MediOp.saveTask _ => true

/-- All operations of the list leave the reserved counter key alone. -/
def counterFree (ops : List MediOp) : Bool :=
  List.all ops opAvoidsCounter

/-- The counter key currently holds the 8-byte value `c` (a fresh store,
counter absent, counts as 0). -/
def counterIs (db : Store) (c : Nat) : Prop :=
  storeGet db counterKey = some (Val.bytes8 c) ∨
    (c = 0 ∧ storeGet db counterKey = none)

/-- Stable insertion keeping scores descending: the document goes in
front of the first strictly lower-scored one (ties keep existing order,
as tantivy breaks ties by internal document order). -/
def insertByScore (score : Doc → Nat) (d : Doc) : List Doc → List Doc
  | [] => [d]
  | e :: rest =>
    if score e < score d then d :: e :: rest
    else e :: insertByScore score d rest

/-- Ranking of documents by descending score, the boundary model of the
engine's top-docs collector. -/
def sortByScore (score : Doc → Nat) : List Doc → List Doc
  | [] => []
  | d :: rest => insertByScore score d (sortByScore score rest)

/-- The documents returned by the engine for one query: those matching
the query parsed against the `title`, `content` and `tags` fields (the
`key` field is not searched), ranked by descending score, truncated at
the fixed limit 10 (`TopDocs::with_limit(10)` in `search::search_notes`).
The match predicate and the score function are parameters: they model
the external engine's query parsing and scoring at its boundary. -/
def topDocs (docs : List Doc) (q : String → String → List String → Bool)
    (score : Doc → Nat) : List Doc :=
  List.take 10 (sortByScore score
    (List.filter (fun d => q d.title d.content d.tags) docs))

/-- `search::search_notes`: retrieve the top documents and extract the
stored `key` field of each, preserving score order. -/
def search_notes (docs : List Doc) (q : String → String → List String → Bool)
    (score : Doc → Nat) : List String :=
  List.map (fun d => d.key) (topDocs docs q score)

/-- Number of index documents carrying a given key. -/
def countKey (docs : List Doc) (key : String) : Nat :=
  List.count key (List.map (fun d => d.key) docs)

/-- N successful repetitions of `save_note_with_index` with the same
note. -/
def iterateSave : Nat → SysState → Note → SysState
  | 0, s, _ => s
  | k + 1, s, note => iterateSave k (save_note_with_index s note false).1 note

/-- A concrete note used by the witnesses. -/
def demoNote : Note :=
  { key := "alpha", title := "Alpha", tags := ["x"], content := "rust systems",
    created_at := 0, modified_at := 0 }

/-- A concrete task used by the failing inputs. -/
def demoTask : Task :=
  { id := 1, note_key := "alpha", description := "first task",
    status := TaskStatus.Open, created_at := 0 }

/-- The index document of the demo note. -/
def demoDoc : Doc := noteToDoc demoNote

/-- A store holding just the demo note. -/
def demoStore : Store := [("alpha", Val.noteJson demoNote)]

/-- The primary store right after one `task add` on an empty database:
the counter key holds the raw 8-byte value 1 and the task record sits
under `tasks/1`. -/
def taskStore : Store :=
  [(counterKey, Val.bytes8 1), (taskKey 1, Val.taskJson demoTask)]

/-! ### Basic store lemmas -/

theorem storeGet_insert_self (db : Store) (key : String) (v : Val) :
    storeGet (storeInsert db key v) key = some v := by
  induction db with
  | nil => simp [storeInsert, storeGet]
  | cons p rest ih =>
    by_cases h : p.1 = key
    · simp [storeInsert, storeGet, h]
    · simp [storeInsert, storeGet, h, ih]

theorem storeGet_insert_ne (db : Store) (key key2 : String) (v : Val)
    (h : key ≠ key2) : storeGet (storeInsert db key v) key2 = storeGet db key2 := by
  induction db with
  | nil => simp [storeInsert, storeGet, h]
  | cons p rest ih =>
    by_cases hp : p.1 = key
    · simp [storeInsert, storeGet, hp, h, Ne.symm h]
    · by_cases hq : p.1 = key2
      · simp [storeInsert, storeGet, hp, hq, h, Ne.symm h]
      · simp [storeInsert, storeGet, hp, hq, ih]

theorem storeGet_remove_ne (db : Store) (key key2 : String)
    (h : key ≠ key2) : storeGet (storeRemove db key) key2 = storeGet db key2 := by
  induction db with
  | nil => simp [storeRemove, storeGet]
  | cons p rest ih =>
    by_cases hp : p.1 = key
    · simp [storeRemove, storeGet, hp, h, Ne.symm h, ih]
    · by_cases hq : p.1 = key2
      · simp [storeRemove, storeGet, hp, hq, h, Ne.symm h]
      · simp [storeRemove, storeGet, hp, hq, ih]

theorem taskKey_ne_counterKey (id : Nat) : taskKey id ≠ counterKey := by
  intro h
  have hd := congrArg String.data h
  rw [taskKey, String.data_append] at hd
  simp [counterKey] at hd

/-! ### C4: primary-store failure aborts before any index mutation -/

/-- C4: if the primary-store put step of `save_note_with_index` fails,
the operation returns that store error and the search index is exactly
what it was before the call (no writer is ever opened). -/
theorem save_put_failure_aborts (s : SysState) (note : Note) :
    save_note_with_index s note true = (s, some AppError.Sled) := rfl

/-! ### C6: delete of a missing key errors and touches nothing -/

/-- C6: deleting a key absent from the primary store returns
`KeyNotFound` and leaves both the store and the index unchanged, never
reporting success; deleting a present key removes it from the store and
removes its documents from the index. -/
theorem delete_note_with_index_spec (s : SysState) (key : String) :
    (storeContainsKey s.store key = false →
      delete_note_with_index s key = (s, some (AppError.KeyNotFound key))) ∧
    (storeContainsKey s.store key = true →
      delete_note_with_index s key =
        ({ store := storeRemove s.store key,
           index := delete_note_from_index key s.index }, none)) := by
  constructor <;> intro h <;> simp [delete_note_with_index, delete_note, h]

/-- Concrete instance of `delete_note_with_index_spec`: the demo store
contains the key `alpha`; deleting it empties both the store and the
index. -/
theorem delete_note_with_index_witness :
    storeContainsKey demoStore "alpha" = true ∧
    delete_note_with_index ⟨demoStore, [demoDoc]⟩ "alpha" =
      ({ store := [], index := [] }, none) :=
  ⟨by decide, (delete_note_with_index_spec ⟨demoStore, [demoDoc]⟩ "alpha").2 (by decide)⟩

/-! ### C9: create-if-absent rejects an existing key untouched -/

/-- C9: when the key already exists in the primary store, the `New`
handler fails with `KeyExists` before touching anything: for every
possible content the store and the index are returned unchanged, so a
note is only ever created when the key was absent. -/
theorem cmd_new_existing_key (s : SysState) (key : String) (title : Option String)
    (tag : List String) (content : String) (now : Nat)
    (h : key_exists s.store key = true) :
    cmd_new s key title tag content now = (s, some (AppError.KeyExists key)) := by
  simp [cmd_new, h]

/-- Concrete instance of `cmd_new_existing_key` on the demo store. -/
theorem cmd_new_existing_key_witness :
    key_exists demoStore "alpha" = true ∧
    cmd_new ⟨demoStore, [demoDoc]⟩ "alpha" none [] "fresh content" 5 =
      (⟨demoStore, [demoDoc]⟩, some (AppError.KeyExists "alpha")) :=
  ⟨by decide, cmd_new_existing_key ⟨demoStore, [demoDoc]⟩ "alpha" none [] "fresh content" 5 (by decide)⟩

/-! ### C7: edits keep key and created_at, bump modified_at -/

/-- C7: whenever the `Edit` handler saves a note (tags added or removed,
or content changed), the saved note keeps the original key and
`created_at` and its `modified_at` is the fresh timestamp, strictly
greater than the old one. -/
theorem cmd_edit_frame (note : Note) (add_tag rm_tag : List String)
    (editorContent : String) (now : Nat) (note2 : Note)
    (hnow : note.modified_at < now)
    (h : cmd_edit note add_tag rm_tag editorContent now = some note2) :
    note2.key = note.key ∧ note2.created_at = note.created_at ∧
      note.modified_at < note2.modified_at := by
  simp only [cmd_edit] at h
  by_cases hm : ((applyAddTags note.tags add_tag).2 ||
      (applyRmTags (applyAddTags note.tags add_tag).1 rm_tag).2) = true
  · rw [if_pos hm] at h
    cases h
    exact ⟨rfl, rfl, hnow⟩
  · rw [if_neg hm] at h
    by_cases hc : (editorContent.trim != note.content.trim) = true
    · rw [if_pos hc] at h
      cases h
      exact ⟨rfl, rfl, hnow⟩
    · rw [if_neg hc] at h
      cases h

/-- Concrete instance of `cmd_edit_frame`: adding the tag `y` to the
demo note at time 1. -/
theorem cmd_edit_frame_witness :
    demoNote.modified_at < 1 ∧
    (({ demoNote with tags := ["x", "y"], modified_at := 1 } : Note).key = demoNote.key ∧
      ({ demoNote with tags := ["x", "y"], modified_at := 1 } : Note).created_at = demoNote.created_at ∧
      demoNote.modified_at < ({ demoNote with tags := ["x", "y"], modified_at := 1 } : Note).modified_at) :=
  ⟨by decide, cmd_edit_frame demoNote ["y"] [] "" 1
    { demoNote with tags := ["x", "y"], modified_at := 1 } (by decide) (by decide)⟩

/-! ### C10: the counter closure always returns Some -/

/-- C10: the closure handed to `update_and_fetch` returns `Some` of a
new value whenever it returns at all, so the `None` branch producing the
counter-failure `Database` error is unreachable: whenever the atomic
update completes, `get_next_task_id` returns `Ok` with a numeric ID. -/
theorem get_next_task_id_no_counter_failure :
    (∀ old r, counterClosure old = some r → ∃ v, r = some v) ∧
    (∀ db out, get_next_task_id db = some out → ∃ n, out.1 = Except.ok n) := by
  constructor
  · intro old r h
    match old with
    | none => exact ⟨(0 + 1) % 2 ^ 64, by simpa [counterClosure] using h.symm⟩
    | some (Val.bytes8 v) => exact ⟨(v + 1) % 2 ^ 64, by simpa [counterClosure] using h.symm⟩
    | some (Val.noteJson n) => simp [counterClosure] at h
    | some (Val.taskJson t) => simp [counterClosure] at h
  · intro db out h
    cases hl : storeGet db counterKey with
    | none =>
      simp [get_next_task_id, counterClosure, hl] at h
      exact ⟨_, congrArg Prod.fst h.symm⟩
    | some val =>
      cases val with
      | noteJson n => simp [get_next_task_id, counterClosure, hl] at h
      | taskJson t => simp [get_next_task_id, counterClosure, hl] at h
      | bytes8 v =>
        simp [get_next_task_id, counterClosure, hl] at h
        exact ⟨_, congrArg Prod.fst h.symm⟩

/-- Concrete instance of `get_next_task_id_no_counter_failure`: on the
empty store the atomic update succeeds and the call returns ID 1. -/
theorem get_next_task_id_witness :
    ∃ n, ((Except.ok 1, [(counterKey, Val.bytes8 1)]) : Except AppError Nat × Store).1 =
      Except.ok n :=
  get_next_task_id_no_counter_failure.2 [] (Except.ok 1, [(counterKey, Val.bytes8 1)]) rfl

/-! ### C1: reindex fails on any store that ever held a task -/

/-- C1 failing input: after a single `task add` the store holds the raw
8-byte counter and the task record; `get_all_notes` (driving the
`Reindex` handler) chokes on them, so `reindex_all` returns a serde
error and leaves the stale index document in place instead of rebuilding
the index (which, with no notes in the store, should have become
empty). -/
theorem reindex_fails_after_task_add :
    (reindex_all ⟨taskStore, [demoDoc]⟩).2 = some AppError.SerdeJson ∧
    (reindex_all ⟨taskStore, [demoDoc]⟩).1.index = [demoDoc] :=
  ⟨rfl, rfl⟩

/-! ### C3: note enumeration reads the reserved counter key -/

/-- C3 failing behaviour: `get_all_notes` (behind `list`, `reindex`,
`export`, backlinks and status) iterates every key of the tree, so it
does read the reserved counter key: on a store holding only the counter
it fails to parse the 8 raw bytes as a note, while on the same store
without the counter it succeeds, proving the counter value is read
outside the ID generator. -/
theorem get_all_notes_reads_counter_key :
    get_all_notes [(counterKey, Val.bytes8 1)] = Except.error AppError.SerdeJson ∧
    get_all_notes [] = Except.ok [] :=
  ⟨rfl, rfl⟩


/-! ### Ranking lemmas -/

theorem insertByScore_perm (score : Doc → Nat) (d : Doc) (l : List Doc) :
    (insertByScore score d l).Perm (d :: l) := by
  induction l with
  | nil => exact List.Perm.refl _
  | cons e rest ih =>
    simp only [insertByScore]
    split
    · exact List.Perm.refl _
    · exact (ih.cons e).trans (List.Perm.swap d e rest)

theorem sortByScore_perm (score : Doc → Nat) (l : List Doc) :
    (sortByScore score l).Perm l := by
  induction l with
  | nil => exact List.Perm.refl _
  | cons d rest ih =>
    exact (insertByScore_perm score d (sortByScore score rest)).trans (ih.cons d)

theorem insertByScore_pairwise (score : Doc → Nat) (d : Doc) (l : List Doc)
    (h : l.Pairwise (fun a b => score b ≤ score a)) :
    (insertByScore score d l).Pairwise (fun a b => score b ≤ score a) := by
  induction l with
  | nil => simp [insertByScore]
  | cons e rest ih =>
    rcases List.pairwise_cons.1 h with ⟨he, hrest⟩
    simp only [insertByScore]
    split
    · rename_i hlt
      refine List.pairwise_cons.2 ⟨?_, h⟩
      intro x hx
      rcases List.mem_cons.1 hx with hx | hx
      · subst hx
        omega
      · have := he x hx
        omega
    · rename_i hge
      refine List.pairwise_cons.2 ⟨?_, ih hrest⟩
      intro x hx
      have hx2 := List.mem_cons.1 ((insertByScore_perm score d rest).mem_iff.1 hx)
      rcases hx2 with hx2 | hx2
      · subst hx2
        omega
      · exact he x hx2

theorem sortByScore_pairwise (score : Doc → Nat) (l : List Doc) :
    (sortByScore score l).Pairwise (fun a b => score b ≤ score a) := by
  induction l with
  | nil => simp [sortByScore]
  | cons d rest ih => exact insertByScore_pairwise score d (sortByScore score rest) ih

/-! ### C8: top-10 ranked retrieval extracting keys in score order -/

/-- C8: for every query (modelled at the engine boundary as a match
predicate over the three searched fields, plus a score), `search_notes`
returns at most 10 keys, exactly the stored `key` fields of the top
documents in descending score order, and every returned document is an
index document matching the query on `title`/`content`/`tags`. -/
theorem search_notes_spec (docs : List Doc) (q : String → String → List String → Bool)
    (score : Doc → Nat) :
    (search_notes docs q score).length ≤ 10 ∧
    search_notes docs q score = List.map (fun d => d.key) (topDocs docs q score) ∧
    (topDocs docs q score).Pairwise (fun a b => score b ≤ score a) ∧
    ∀ d ∈ topDocs docs q score, d ∈ docs ∧ q d.title d.content d.tags = true := by
  refine ⟨?_, rfl, ?_, ?_⟩
  · simp only [search_notes, List.length_map, topDocs]
    exact List.length_take_le 10 _
  · exact ((sortByScore_pairwise score _).sublist (List.take_sublist _ _))
  · intro d hd
    have hmem : d ∈ sortByScore score
        (List.filter (fun d => q d.title d.content d.tags) docs) :=
      List.mem_of_mem_take hd
    have hmem2 := (sortByScore_perm score _).mem_iff.1 hmem
    have := List.mem_filter.1 hmem2
    exact ⟨this.1, this.2⟩

/-! ### C5: repeated saves leave at most one document per key -/

theorem countKey_after_save (s : SysState) (note : Note) :
    countKey (save_note_with_index s note false).1.index note.key = 1 := by
  have hstep : (save_note_with_index s note false).1.index =
      List.filter (fun d => d.key != note.key) s.index ++ [noteToDoc note] := rfl
  rw [hstep]
  unfold countKey
  rw [List.map_append, List.count_append]
  have hz : List.count note.key
      (List.map (fun d => d.key)
        (List.filter (fun d => d.key != note.key) s.index)) = 0 := by
    rw [List.count_eq_zero]
    intro hmem
    rcases List.mem_map.1 hmem with ⟨d, hd, hkey⟩
    rcases List.mem_filter.1 hd with ⟨_, hne⟩
    rw [hkey] at hne
    simp at hne
  rw [hz]
  simp [noteToDoc]

theorem countKey_iterateSave (k : Nat) (s : SysState) (note : Note) :
    countKey (iterateSave (k + 1) s note).index note.key = 1 := by
  induction k generalizing s with
  | zero => exact countKey_after_save s note
  | succ k ih => exact ih (save_note_with_index s note false).1

theorem count_search_le (docs : List Doc) (q : String → String → List String → Bool)
    (score : Doc → Nat) (key : String) :
    List.count key (search_notes docs q score) ≤ countKey docs key := by
  unfold search_notes topDocs countKey
  have h1 := ((List.take_sublist 10
      (sortByScore score (List.filter (fun d => q d.title d.content d.tags) docs))).map
      (fun d => d.key)).count_le key
  have h2 := (((sortByScore_perm score
      (List.filter (fun d => q d.title d.content d.tags) docs))).map
      (fun d => d.key)).count_eq key
  have h3 := (((List.filter_sublist docs :
      (List.filter (fun d => q d.title d.content d.tags) docs).Sublist docs)).map
      (fun d => d.key)).count_le key
  omega

/-- C5: saving the same key N ≥ 1 times through `save_note_with_index`
(delete-by-key then add, one commit) leaves exactly one index document
with that key — in particular at most one — so no query's result list
ever contains that key more than once. -/
theorem save_same_key_no_duplicates (N : Nat) (hN : 1 ≤ N) (s : SysState) (note : Note)
    (q : String → String → List String → Bool) (score : Doc → Nat) :
    countKey (iterateSave N s note).index note.key = 1 ∧
    List.count note.key (search_notes (iterateSave N s note).index q score) ≤ 1 := by
  obtain ⟨k, rfl⟩ : ∃ k, N = k + 1 := ⟨N - 1, by omega⟩
  have h1 := countKey_iterateSave k s note
  refine ⟨h1, ?_⟩
  have h2 := count_search_le (iterateSave (k + 1) s note).index q score note.key
  omega

/-- Concrete instance of `save_same_key_no_duplicates`: two saves of the
demo note into an empty system leave one `alpha` document and any query
returns `alpha` at most once. -/
theorem save_same_key_no_duplicates_witness :
    1 ≤ 2 ∧
    (countKey (iterateSave 2 ⟨[], []⟩ demoNote).index demoNote.key = 1 ∧
      List.count demoNote.key
        (search_notes (iterateSave 2 ⟨[], []⟩ demoNote).index
          (fun _ _ _ => true) (fun _ => 0)) ≤ 1) :=
  ⟨by decide,
    save_same_key_no_duplicates 2 (by decide) ⟨[], []⟩ demoNote
      (fun _ _ _ => true) (fun _ => 0)⟩


/-! ### C2: the task-ID sequence under interleaving -/

theorem runOps_issues (ops : List MediOp) (db : Store) (c : Nat)
    (hdb : counterIs db c) (hfree : counterFree ops = true)
    (hlt : c + countNextId ops < 2 ^ 64) :
    ∃ db2, runOps ops db = some (db2, List.range' (c + 1) (countNextId ops)) := by
  induction ops generalizing db c with
  | nil => exact ⟨db, rfl⟩
  | cons op rest ih =>
    rw [counterFree, List.all_cons, Bool.and_eq_true] at hfree
    obtain ⟨hop, hfree2⟩ := hfree
    cases op with
    | nextId =>
      have hcount : countNextId (MediOp.nextId :: rest) = countNextId rest + 1 := by
        simp [countNextId, List.countP_cons]
      rw [hcount] at hlt
      have hmod : (c + 1) % 2 ^ 64 = c + 1 := Nat.mod_eq_of_lt (by omega)
      have hnext : get_next_task_id db =
          some (Except.ok (c + 1), storeInsert db counterKey (Val.bytes8 (c + 1))) := by
        rcases hdb with hdb | ⟨rfl, hdb⟩
        · have h1 : counterClosure (storeGet db counterKey) = some (some (c + 1)) := by
            rw [hdb]
            simp only [counterClosure]
            rw [hmod]
          simp [get_next_task_id, h1]
        · have h1 : counterClosure (storeGet db counterKey) = some (some (0 + 1)) := by
            rw [hdb]
            simp [counterClosure]
          simp [get_next_task_id, h1]
      have hIs : counterIs (storeInsert db counterKey (Val.bytes8 (c + 1))) (c + 1) :=
        Or.inl (storeGet_insert_self db counterKey (Val.bytes8 (c + 1)))
      obtain ⟨db2, hrun⟩ := ih _ (c + 1) hIs hfree2 (by omega)
      refine ⟨db2, ?_⟩
      simp only [runOps, hnext, hrun]
      rw [hcount, List.range'_succ]

    | saveNote n =>
      have hkey : n.key ≠ counterKey := by
        simpa [opAvoidsCounter, bne_iff_ne] using hop
      have hcount : countNextId (MediOp.saveNote n :: rest) = countNextId rest := by
        simp [countNextId, List.countP_cons]
      have hstep : runOps (MediOp.saveNote n :: rest) db =
          runOps rest (storeInsert db n.key (Val.noteJson n)) := rfl
      have hIs : counterIs (storeInsert db n.key (Val.noteJson n)) c := by
        rcases hdb with hdb | ⟨rfl, hdb⟩
        · exact Or.inl (by rw [storeGet_insert_ne _ _ _ _ hkey]; exact hdb)
        · exact Or.inr ⟨rfl, by rw [storeGet_insert_ne _ _ _ _ hkey]; exact hdb⟩
      obtain ⟨db2, hrun⟩ := ih _ c hIs hfree2 (by rw [hcount] at hlt; omega)
      exact ⟨db2, by rw [hstep, hcount]; exact hrun⟩
    | deleteNote key =>
      have hkey : key ≠ counterKey := by
        simpa [opAvoidsCounter, bne_iff_ne] using hop
      have hcount : countNextId (MediOp.deleteNote key :: rest) = countNextId rest := by
        simp [countNextId, List.countP_cons]
      by_cases hex : storeContainsKey db key = true
      · have hstep : runOps (MediOp.deleteNote key :: rest) db =
            runOps rest (storeRemove db key) := by
          simp only [runOps, delete_note, if_pos hex]
        have hIs : counterIs (storeRemove db key) c := by
          rcases hdb with hdb | ⟨rfl, hdb⟩
          · exact Or.inl (by rw [storeGet_remove_ne _ _ _ hkey]; exact hdb)
          · exact Or.inr ⟨rfl, by rw [storeGet_remove_ne _ _ _ hkey]; exact hdb⟩
        obtain ⟨db2, hrun⟩ := ih _ c hIs hfree2 (by rw [hcount] at hlt; omega)
        exact ⟨db2, by rw [hstep, hcount]; exact hrun⟩
      · have hstep : runOps (MediOp.deleteNote key :: rest) db = runOps rest db := by
          simp only [runOps, delete_note, if_neg hex]
        obtain ⟨db2, hrun⟩ := ih _ c hdb hfree2 (by rw [hcount] at hlt; omega)
        exact ⟨db2, by rw [hstep, hcount]; exact hrun⟩
    | saveTask t =>
      have hkey := taskKey_ne_counterKey t.id
      have hcount : countNextId (MediOp.saveTask t :: rest) = countNextId rest := by
        simp [countNextId, List.countP_cons]
      have hstep : runOps (MediOp.saveTask t :: rest) db =
          runOps rest (storeInsert db (taskKey t.id) (Val.taskJson t)) := rfl
      have hIs : counterIs (storeInsert db (taskKey t.id) (Val.taskJson t)) c := by
        rcases hdb with hdb | ⟨rfl, hdb⟩
        · exact Or.inl (by rw [storeGet_insert_ne _ _ _ _ hkey]; exact hdb)
        · exact Or.inr ⟨rfl, by rw [storeGet_insert_ne _ _ _ _ hkey]; exact hdb⟩
      obtain ⟨db2, hrun⟩ := ih _ c hIs hfree2 (by rw [hcount] at hlt; omega)
      exact ⟨db2, by rw [hstep, hcount]; exact hrun⟩

/-- C2 (amended): starting from a fresh store (counter key absent),
k calls to `get_next_task_id` interleaved with any other store
operations that leave the reserved counter key alone all succeed and
return exactly the sequence 1, 2, ..., k (k within the u64 range): the
first issued ID is 1 and issued IDs are strictly increasing with no
repeats. -/
theorem next_id_sequence (ops : List MediOp) (db : Store)
    (hfresh : storeGet db counterKey = none)
    (hfree : counterFree ops = true)
    (hk : countNextId ops < 2 ^ 64) :
    ∃ db2, runOps ops db = some (db2, List.range' 1 (countNextId ops)) := by
  have h := runOps_issues ops db 0 (Or.inr ⟨rfl, hfresh⟩) hfree (by omega)
  simpa using h

/-- Concrete instance of `next_id_sequence`: three ID issues interleaved
with a note save on a fresh store yield exactly 1, 2, 3. -/
theorem next_id_sequence_witness :
    storeGet ([] : Store) counterKey = none ∧
    ∃ db2, runOps [MediOp.nextId, MediOp.saveNote demoNote, MediOp.nextId,
        MediOp.nextId] [] = some (db2, [1, 2, 3]) := by
  refine ⟨rfl, ?_⟩
  exact next_id_sequence [MediOp.nextId, MediOp.saveNote demoNote,
    MediOp.nextId, MediOp.nextId] [] rfl (by decide) (by decide)

/-- C2 counterexample to the unrestricted claim: a plain store delete of
the reserved counter key (which `delete_note` accepts like any other
present key, reachable via the CLI's `delete --force`) interleaved
between two ID issues wipes the counter, so the second issue returns 1
again — a repeat, not the sequence 1, 2. -/
theorem next_id_repeat_counterexample :
    runOps [MediOp.nextId, MediOp.deleteNote counterKey, MediOp.nextId] [] =
      some ([(counterKey, Val.bytes8 1)], [1, 1]) := rfl


end Medi
